import Mathlib

/-!
Verification of the chat response pipeline in
`backend/open_webui/utils/middleware.py`.

The Python functions are shallowly embedded as Lean definitions:

* `get_filter_function_ids` and `chat_completion_filter_functions_handler`
  (filter chain runner);
* `chat_completion_tools_handler` and the surrounding absorption in
  `process_chat_payload` (tool invocation stage);
* `post_response_handler` (the detached streaming consumer), modelled as a
  state machine producing a trace of observable actions (live-transport
  emissions, persistence writes, webhook, background handoff, cleanup);
* `background_tasks_handler` (title/tag generation), likewise as a trace.

External collaborators (plugin loader, store, model client, live transport,
json library) are passed in as explicit parameters; calls into them that can
raise are modelled with `Except`/oracles.  CancelledError of the surrounding
task is modelled by an optional cut position in the upstream stream.
-/

namespace Middleware

/-! ## Generic helpers -/

/-- Last element of a list with a default: the value a sequence of
last-writer-wins persistence writes leaves in the store. -/
def lastD (l : List String) (d : String) : String :=
  l.foldl (fun _ x => x) d

/-- Concatenation of a list of strings, in order. -/
def concatAll (l : List String) : String :=
  l.foldr (fun x acc => x ++ acc) ""

/-- Insertion step of a stable ascending sort by an integer key
(the behaviour of CPython's stable `list.sort(key=...)`). -/
def insertByKey (key : α → Int) (x : α) : List α → List α
  | [] => [x]
  | y :: ys => if key x ≤ key y then x :: y :: ys else y :: insertByKey key x ys

/-- Stable ascending sort by an integer key, extensionally the sort
performed by CPython's `list.sort(key=...)`. -/
def sortByKey (key : α → Int) : List α → List α
  | [] => []
  | x :: xs => insertByKey key x (sortByKey key xs)

/-- Python `str.find(ch)`: index of the first occurrence, `-1` if absent. -/
def pyFind (s : List Char) (c : Char) : Int :=
  match s with
  | [] => -1
  | x :: xs =>
    if x = c then 0
    else match pyFind xs c with
      | -1 => -1
      | i => i + 1

/-- Python `str.rfind(ch)`: index of the last occurrence, `-1` if absent. -/
def pyRfind (s : List Char) (c : Char) : Int :=
  match s with
  | [] => -1
  | x :: xs =>
    match pyRfind xs c with
    | -1 => if x = c then 0 else -1
    | i => i + 1

/-- Normalisation of one Python slice bound for a sequence of length `n`. -/
def pyBound (n : Nat) (i : Int) : Nat :=
  if i < 0 then (n + i).toNat else min i.toNat n

/-- Python slice `s[i:j]` (negative indices count from the end). -/
def pySlice (s : List Char) (i j : Int) : List Char :=
  let a := pyBound s.length i
  let b := pyBound s.length j
  (s.drop a).take (b - a)

/-- `content[content.find("\x7b") : content.rfind("\x7d") + 1]` — the
first-`\x7b`-to-last-`\x7d` substring extraction used by the tool stage and
the tag parser. -/
def extractBraced (s : String) : String :=
  let cs := s.toList
  String.mk (pySlice cs (pyFind cs '{') (pyRfind cs '}' + 1))

/-! ## Filter chain runner (`chat_completion_filter_functions_handler`) -/

/-- Stored record for a function id (`Functions.get_function_by_id`).
`valves = none` collapses the cases "no truthy `valves` attribute"
(absent attribute, `None`, empty dict): all of them make `get_priority`
fall back to `0` in the source. -/
structure FunctionRec where
  valves : Option (List (String × Int))

/-- `get_priority` from `get_filter_function_ids`: read `priority` from the
function's installation-level valves, defaulting to 0 at every step. -/
def get_priority (table : String → Option FunctionRec) (function_id : String) : Int :=
  match table function_id with
  | none => 0
  | some f =>
    match f.valves with
    | none => 0
    | some vs => (vs.lookup "priority").getD 0

/-- The model descriptor as seen by `get_filter_function_ids`:
`infoMeta = some ids` when `"info" in model and "meta" in model["info"]`,
carrying `model["info"]["meta"].get("filterIds", [])`. -/
structure ModelDesc where
  infoMeta : Option (List String)

/-- Environment of the filter-id resolution: the stored function table, the
global filter ids, the ids of currently enabled filter-type functions, and
the (unspecified) element order produced by CPython's `list(set(xs))`. -/
structure FilterEnv where
  table : String → Option FunctionRec
  globalFilters : List String
  enabled : List String
  setOrder : List String → List String

/-- The candidate id list right before the final `.sort(key=get_priority)`:
global ids, unioned with the model's `filterIds` through `list(set(...))`,
then intersected with the enabled filter ids. -/
def filterCandidates (env : FilterEnv) (model : ModelDesc) : List String :=
  let filter_ids := env.globalFilters
  let filter_ids :=
    match model.infoMeta with
    | some moreIds => env.setOrder (filter_ids ++ moreIds)
    | none => filter_ids
  filter_ids.filter (fun i => env.enabled.contains i)

/-- `get_filter_function_ids(model)`. -/
def get_filter_function_ids (env : FilterEnv) (model : ModelDesc) : List String :=
  sortByKey (get_priority env.table) (filterCandidates env model)

/-- `metadata` sub-object of the request envelope: only the fields this file
reads (`tool_ids`, `files`).  `tool_ids = []` collapses absent/`None`/empty,
all falsy in `if not tool_ids`. -/
structure MetaObj where
  tool_ids : List String := []
  files : Option (List String) := none
deriving DecidableEq

/-- The mutable request envelope; `payload` stands for all fields this file
never inspects (`messages`, `model`, sampling parameters, ...). -/
structure Body where
  meta : Option MetaObj := none
  payload : Nat := 0
deriving DecidableEq

/-- `del body["metadata"]["files"]`. -/
def deleteFiles (body : Body) : Body :=
  match body.meta with
  | some m => { body with meta := some { m with files := none } }
  | none => body

/-- `"files" in body.get("metadata", \x7b\x7d)`. -/
def hasFiles (body : Body) : Bool :=
  match body.meta with
  | some m => m.files.isSome
  | none => false

/-- A loaded filter module: the truthiness of its `file_handler` attribute
(`none` = attribute absent) and its `inlet` hook (`none` = absent), already
specialised to its parameter binding; `Except` models the hook raising. -/
structure FilterModule where
  file_handler : Option Bool := none
  inlet : Option (Body → Except Unit Body) := none

/-- The `for filter_id in filter_ids` loop of
`chat_completion_filter_functions_handler`: `resolve` combines
`Functions.get_function_by_id` (falsy record ⇒ `continue`) with the module
load (cached or fresh).  The `skip_files` accumulator is overwritten by every
executed filter that has a `file_handler` attribute.  A raising `inlet` is
re-raised, aborting the chain. -/
def runFilterChain (resolve : String → Option FilterModule) :
    List String → Option Bool → Body → Except Unit (Option Bool × Body)
  | [], skip_files, body => .ok (skip_files, body)
  | fid :: rest, skip_files, body =>
    match resolve fid with
    | none => runFilterChain resolve rest skip_files body
    | some m =>
      let skip2 := match m.file_handler with
        | some b => some b
        | none => skip_files
      match m.inlet with
      | none => runFilterChain resolve rest skip2 body
      | some hook =>
        match hook body with
        | .ok body2 => runFilterChain resolve rest skip2 body2
        | .error e => .error e

/-- `chat_completion_filter_functions_handler`: run the chain over the
resolved filter ids, then drop the attached files from the metadata when the
final `skip_files` value is truthy. -/
def chat_completion_filter_functions_handler (env : FilterEnv)
    (resolve : String → Option FilterModule) (model : ModelDesc) (body : Body) :
    Except Unit Body :=
  match runFilterChain resolve (get_filter_function_ids env model) none body with
  | .error e => .error e
  | .ok (skip_files, body2) =>
    if skip_files.getD false && hasFiles body2 then .ok (deleteFiles body2)
    else .ok body2

/-- The `file_handler` value declared by the last executed filter that
declares one (the value `skip_files` holds after the loop). -/
def lastFileHandler (resolve : String → Option FilterModule) (ids : List String) :
    Option Bool :=
  ids.foldl
    (fun acc fid =>
      match resolve fid with
      | none => acc
      | some m =>
        match m.file_handler with
        | some b => some b
        | none => acc)
    none

/-! ## Tool invocation stage (`chat_completion_tools_handler`) -/

/-- A Python value as classified by the `isinstance(tool_output, str)`
check: a string, or anything else (dict, list, `None`, ...). -/
inductive PyVal where
  | str (s : String)
  | other
deriving DecidableEq

/-- The object parsed out of the sub-call content:
`result.get("name", None)` and `result.get("parameters", \x7b\x7d)`.
A `json.loads` failure, or a parsed value that is not a dict, is modelled as
the parse oracle returning `none` (both raise and are swallowed). -/
structure ToolSel where
  name : Option String := none
  parameters : List (String × PyVal) := []

/-- One Source Record appended for a tool's textual output. -/
structure SourceRec where
  sourceName : Option String
  document : List String
  metadataSource : String
deriving DecidableEq

/-- The `flags` side of the handler's return value; `sources` is read by
`process_chat_payload` via `flags.get("sources", [])`, so the bare `\x7b\x7d`
returned on the early exits is the same as an empty list here. -/
structure Flags where
  sources : List SourceRec := []
deriving DecidableEq

/-- A resolved tool (one entry of the `tools` dict built by `get_tools`). -/
structure ToolEntry where
  requiredParams : List String
  call : List (String × PyVal) → Except String PyVal
  citation : Bool
  toolkit_id : String
  file_handler : Bool

/-- External collaborators of the tool stage.  `taskModel` models
`get_task_model_id` plus the `models[task_model_id]` lookup, `tools` models
`get_tools` (both run before the outer `try`, so `.error` raises out of the
stage); `subCallContent` models `generate_chat_completion` +
`get_content_from_response` (inside the outer `try`; `.ok none` is falsy
content); `parseJson` models `json.loads` on the extracted substring. -/
structure ToolsEnv where
  taskModel : Except Unit Unit
  tools : Except Unit (List (String × ToolEntry))
  subCallContent : Except Unit (Option String)
  parseJson : String → Option ToolSel

/-- `f"TOOL:\x7btoolkit_id\x7d/\x7btool_function_name\x7d"`. -/
def toolSourceName (entry : ToolEntry) (nm : String) : String :=
  "TOOL:" ++ entry.toolkit_id ++ "/" ++ nm

/-- The Source Record appended for string output `s` of tool `nm`. -/
def mkSource (entry : ToolEntry) (nm : String) (s : String) : SourceRec :=
  { sourceName := if entry.citation then some (toolSourceName entry nm) else none
    document := [s]
    metadataSource := toolSourceName entry nm }

/-- `\x7bk: v for k, v in tool_function_params.items() if k in required_params\x7d`. -/
def filterRequired (entry : ToolEntry) (params : List (String × PyVal)) :
    List (String × PyVal) :=
  params.filter (fun kv => entry.requiredParams.contains kv.1)

/-- `tool_function_name not in tools` with `name` possibly `None`. -/
def lookupTool (tl : List (String × ToolEntry)) : Option String → Option ToolEntry
  | none => none
  | some nm => tl.lookup nm

/-- `if skip_files and "files" in body.get("metadata", \x7b\x7d): del ...` -/
def applySkipFiles (skip_files : Bool) (body : Body) : Body :=
  if skip_files && hasFiles body then deleteFiles body else body

/-- Everything of `chat_completion_tools_handler` inside the outer `try`,
given the already-resolved tools: extract content, locate and parse the
first-brace-to-last-brace substring, dispatch the selected tool, convert a
tool exception to its string form, and append a Source Record only for
string output.  All exception paths fall through to
`return body, \x7b"sources": sources\x7d` with the envelope unchanged. -/
def toolsStageCore (env : ToolsEnv) (tl : List (String × ToolEntry)) (body : Body) :
    Body × Flags :=
  match env.subCallContent with
  | .error _ => (body, {})
  | .ok none => (body, {})
  | .ok (some content) =>
    let extracted := extractBraced content
    if extracted = "" then (body, {})
    else
      match env.parseJson extracted with
      | none => (body, {})
      | some sel =>
        match lookupTool tl sel.name with
        | none => (body, {})
        | some entry =>
          let tool_output :=
            match entry.call (filterRequired entry sel.parameters) with
            | .ok v => v
            | .error e => PyVal.str e
          match tool_output with
          | .str s =>
            (applySkipFiles entry.file_handler body,
             { sources := [mkSource entry (sel.name.getD "") s] })
          | .other => (body, {})

/-- `chat_completion_tools_handler`: early no-op without tool ids; task-model
and tool resolution run before the outer `try`, so their failures raise out
of the stage; everything else is handled by `toolsStageCore`. -/
def chat_completion_tools_handler (env : ToolsEnv) (body : Body) :
    Except Unit (Body × Flags) :=
  match body.meta with
  | none => .ok (body, {})
  | some metadata =>
    match metadata.tool_ids with
    | [] => .ok (body, {})
    | _ :: _ =>
      match env.taskModel with
      | .error e => .error e
      | .ok _ =>
        match env.tools with
        | .error e => .error e
        | .ok tl => .ok (toolsStageCore env tl body)

/-- The call site in `process_chat_payload`: the tool stage is wrapped in
`try/except` that logs and swallows, keeping the envelope and collecting
`flags.get("sources", [])`. -/
def payloadToolsStage (env : ToolsEnv) (body : Body) : Body × List SourceRec :=
  match chat_completion_tools_handler env body with
  | .error _ => (body, [])
  | .ok (b, fl) => (b, fl.sources)

/-! ## Streaming consumer (`post_response_handler`) -/

/-- `choices[0].delta` of a parsed stream chunk. -/
structure DeltaObj where
  content : Option String := none
deriving DecidableEq

/-- One element of a parsed chunk's `choices` list. -/
structure ChoiceObj where
  delta : Option DeltaObj := none
deriving DecidableEq

/-- A parsed `data: ...` stream chunk.  `choices = []` covers both a missing
`choices` key (`data.get("choices", [])`) and an empty list; indexing `[0]`
into it raises and is swallowed by the per-chunk `except`. -/
structure ChunkData where
  selected_model_id : Option String := none
  choices : List ChoiceObj := []
deriving DecidableEq

/-- A pre-accumulated event replayed ahead of the stream.  Only what this
routine observes is modelled: the `content` field that the verbatim
`upsert(**event)` would write, and a `choices[0].delta.content` shape if the
event object happens to carry one. -/
structure EventJson where
  content : Option String := none
  deltaContent : Option String := none
deriving DecidableEq

/-- One line of the upstream stream.  `noise` covers blank lines, lines
without the `data: ` marker, and unparsable payloads (including the
`[DONE]` sentinel, whose handling is behaviourally a no-op). -/
inductive StreamItem where
  | noise
  | chunk (d : ChunkData)
deriving DecidableEq

/-- The `data` payload of an emitted `chat:completion` event. -/
inductive EmitData where
  | replay (e : EventJson)
  | chunkData (d : ChunkData)
  | contentOnly (c : String)
  | finalData (c : String) (t : String)
deriving DecidableEq

/-- An event handed to the live transport. -/
inductive Emitted where
  | completion (d : EmitData)
  | taskCancelled
deriving DecidableEq

/-- One observable action of the streaming consumer, in program order. -/
inductive Action where
  | emit (e : Emitted)
  | upsertEvent (e : EventJson)
  | upsertSelectedModel (m : String)
  | upsertContent (c : String)
  | webhook (title : String) (c : String)
  | backgroundTasks
  | cleanup
deriving DecidableEq

/-- Ambient configuration of one run of `post_response_handler`:
`ENABLE_REALTIME_CHAT_SAVE`, the stored chat title, user activity and
webhook url (for the idle-user notification), whether the upstream response
declares a cleanup callback, and a transport oracle telling whether the n-th
`event_emitter` await succeeds or raises. -/
structure Config where
  realtime : Bool
  title : String
  userActive : Bool
  webhookUrl : Option String
  hasBackground : Bool
  emitOk : Nat → Bool

/-- Mutable state threaded through the routine. -/
structure RunState where
  content : String
  emitIdx : Nat
  trace : List Action

/-- How a run of the routine ended: normally, through the CancelledError
handler, or by an exception escaping it. -/
inductive Outcome where
  | success
  | cancelled
  | error
deriving DecidableEq

/-- The current message's persisted content at the start of the routine:
`message.get("content", "") if message else ""`. -/
structure MsgRec where
  content : Option String := none
deriving DecidableEq

/-- Initial running content read back from the store. -/
def initialContent (message : Option MsgRec) : String :=
  match message with
  | some m => m.content.getD ""
  | none => ""

/-- One `await event_emitter(...)`: on success the event is delivered and
recorded; on a transport fault nothing is delivered and the caller decides
whether the exception is swallowed.  The oracle index advances either way. -/
def emitCall (cfg : Config) (s : RunState) (e : Emitted) : RunState × Bool :=
  if cfg.emitOk s.emitIdx then
    ({ s with emitIdx := s.emitIdx + 1, trace := s.trace ++ [.emit e] }, true)
  else
    ({ s with emitIdx := s.emitIdx + 1 }, false)

/-- The replay loop over the pre-accumulated `events`: each is emitted as a
`chat:completion` event and then persisted verbatim.  No `try` protects this
loop, so a transport fault propagates. -/
def replayEvents (cfg : Config) : List EventJson → RunState → RunState × Bool
  | [], s => (s, true)
  | e :: rest, s =>
    match emitCall cfg s (.completion (.replay e)) with
    | (s1, true) =>
      replayEvents cfg rest { s1 with trace := s1.trace ++ [.upsertEvent e] }
    | (s1, false) => (s1, false)

/-- Processing of one parsed chunk, entirely inside the per-chunk
`except Exception` (which swallows both the `choices[0]` IndexError and a
transport fault during the emit): persist `selected_model_id` immediately;
otherwise extract the delta at `choices[0].delta.content`, and if truthy
append it to the running content, persisting the full content (real-time
mode) or substituting the outgoing payload with the cumulative content
(deferred mode); finally re-emit. -/
def processChunk (cfg : Config) (d : ChunkData) (s : RunState) : RunState :=
  match d.selected_model_id with
  | some m =>
    let s1 := { s with trace := s.trace ++ [.upsertSelectedModel m] }
    (emitCall cfg s1 (.completion (.chunkData d))).1
  | none =>
    match d.choices.head? with
    | none => s
    | some c =>
      match c.delta.bind DeltaObj.content with
      | some v =>
        if v = "" then (emitCall cfg s (.completion (.chunkData d))).1
        else
          let content2 := s.content ++ v
          let s1 := { s with content := content2 }
          if cfg.realtime then
            let s2 := { s1 with trace := s1.trace ++ [.upsertContent content2] }
            (emitCall cfg s2 (.completion (.chunkData d))).1
          else
            (emitCall cfg s1 (.completion (.contentOnly content2))).1
      | none => (emitCall cfg s (.completion (.chunkData d))).1

/-- Processing of one raw line. -/
def processItem (cfg : Config) : StreamItem → RunState → RunState
  | .noise, s => s
  | .chunk d, s => processChunk cfg d s

/-- Decrement of the remaining-reads-until-cancellation counter. -/
def decCancel (ca : Option Nat) : Option Nat :=
  ca.map (fun k => k - 1)

/-- The `async for line in response.body_iterator` loop.  `ca = some k`
models the surrounding task being cancelled at the (k+1)-th stream read
(stream suspension points being the granularity of this model); the returned
flag tells whether CancelledError was raised. -/
def consumeStream (cfg : Config) :
    List StreamItem → Option Nat → RunState → RunState × Bool
  | items, ca, s =>
    match ca with
    | some 0 => (s, true)
    | _ =>
      match items with
      | [] => (s, false)
      | item :: rest => consumeStream cfg rest (decCancel ca) (processItem cfg item s)

/-- Stream exhaustion (success path): read the title, persist the final
content when real-time saving is disabled, fire the idle-user webhook when
applicable, emit the single terminal `done` event, and hand off to the
background completion handler.  A transport fault on the terminal emit is
uncaught and escapes the routine. -/
def finalizeSuccess (cfg : Config) (s : RunState) : RunState × Outcome :=
  let s1 :=
    if cfg.realtime then s
    else { s with trace := s.trace ++ [.upsertContent s.content] }
  let s2 :=
    if cfg.userActive then s1
    else
      match cfg.webhookUrl with
      | some _ => { s1 with trace := s1.trace ++ [.webhook cfg.title s1.content] }
      | none => s1
  match emitCall cfg s2 (.completion (.finalData s2.content cfg.title)) with
  | (s3, true) => ({ s3 with trace := s3.trace ++ [.backgroundTasks] }, .success)
  | (s3, false) => (s3, .error)

/-- The `except asyncio.CancelledError` handler: emit `task-cancelled`, then
persist the partial content when real-time saving is disabled.  A transport
fault on the `task-cancelled` emit escapes the handler. -/
def cancelPath (cfg : Config) (s : RunState) : RunState × Outcome :=
  match emitCall cfg s .taskCancelled with
  | (s1, true) =>
    if cfg.realtime then (s1, .cancelled)
    else ({ s1 with trace := s1.trace ++ [.upsertContent s1.content] }, .cancelled)
  | (s1, false) => (s1, .error)

/-- `post_response_handler(response, events)`: initialise the running content
from the persisted message, replay the pre-accumulated events, consume the
stream, then finalise (success or cancellation).  The cleanup callback sits
after the `try/except` — not in a `finally` — so it runs only when no
exception escapes. -/
def post_response_handler (cfg : Config) (message : Option MsgRec)
    (events : List EventJson) (stream : List StreamItem) (cancelAfter : Option Nat) :
    List Action × Outcome :=
  let s0 : RunState := ⟨initialContent message, 0, []⟩
  let r :=
    match replayEvents cfg events s0 with
    | (s1, false) => (s1, Outcome.error)
    | (s1, true) =>
      match consumeStream cfg stream cancelAfter s1 with
      | (s2, false) => finalizeSuccess cfg s2
      | (s2, true) => cancelPath cfg s2
  match r with
  | (s, .error) => (s.trace, .error)
  | (s, o) =>
    if cfg.hasBackground then (s.trace ++ [.cleanup], o) else (s.trace, o)

/-! ### Trace observers -/

/-- The sequence of persisted writes touching the message's `content` field
(direct `content` upserts, and verbatim event upserts that carry one). -/
def contentWrites (t : List Action) : List String :=
  t.filterMap fun a =>
    match a with
    | .upsertContent c => some c
    | .upsertEvent e => e.content
    | _ => none

/-- The content delta carried by an emitted `chat:completion` payload at the
conventional `choices[0].delta.content` path (empty when absent). -/
def emitDelta : EmitData → String
  | .chunkData d =>
    match d.choices.head? with
    | some c => (c.delta.bind DeltaObj.content).getD ""
    | none => ""
  | .replay e => e.deltaContent.getD ""
  | .contentOnly _ => ""
  | .finalData _ _ => ""

/-- The payloads of the `chat:completion` events delivered to the live
transport, in delivery order. -/
def completionEmits (t : List Action) : List EmitData :=
  t.filterMap fun a =>
    match a with
    | .emit (.completion d) => some d
    | _ => none

/-- Concatenation, in delivery order, of the content deltas of the delivered
`chat:completion` events. -/
def emittedDeltas (t : List Action) : String :=
  concatAll ((completionEmits t).map emitDelta)

/-- The content delta a stream line contributes to the running content. -/
def itemDelta : StreamItem → String
  | .noise => ""
  | .chunk d =>
    match d.selected_model_id with
    | some _ => ""
    | none =>
      match d.choices.head? with
      | none => ""
      | some c => (c.delta.bind DeltaObj.content).getD ""

/-- Concatenation of the content deltas of a stream segment. -/
def streamDeltas (items : List StreamItem) : String :=
  concatAll (items.map itemDelta)

/-- The message content the store holds after the trace, starting from the
initially persisted content (last content write wins). -/
def finalPersisted (init : String) (t : List Action) : String :=
  lastD (contentWrites t) init

/-- Is this the terminal `done` event? -/
def isFinalEmit : Action → Bool
  | .emit (.completion (.finalData _ _)) => true
  | _ => false

/-- Is this the `task-cancelled` event? -/
def isCancelEmit : Action → Bool
  | .emit .taskCancelled => true
  | _ => false

/-- Actions that can occur while replaying events or consuming the stream —
everything except the terminal emit, the cancellation signal, the webhook,
the background handoff and the cleanup call. -/
def midAction : Action → Bool
  | .emit (.completion (.finalData _ _)) => false
  | .emit .taskCancelled => false
  | .webhook _ _ => false
  | .backgroundTasks => false
  | .cleanup => false
  | _ => true

/-- The prefix of the stream actually processed before cancellation (or all
of it). -/
def processedItems (items : List StreamItem) (ca : Option Nat) : List StreamItem :=
  match ca with
  | none => items
  | some k => items.take k

/-- Does the modelled cancellation fire before the stream is exhausted? -/
def cancelFiresB (ca : Option Nat) (items : List StreamItem) : Bool :=
  match ca with
  | none => false
  | some k => k ≤ items.length

/-- Chunks that carry a `selected_model_id` take the metadata-update branch;
this predicate says such a chunk carries no content delta (its raw re-emit
then contributes nothing to the delta concatenation). -/
def selDeltaFree : StreamItem → Bool
  | .noise => true
  | .chunk d =>
    match d.selected_model_id with
    | some _ => emitDelta (.chunkData d) = ""
    | none => true

/-- Trace of the replay loop when every emit succeeds. -/
def replaySeg : List EventJson → List Action
  | [] => []
  | e :: rest =>
    Action.emit (.completion (.replay e)) :: Action.upsertEvent e :: replaySeg rest

/-- Trace of one chunk when every emit succeeds, given the running content
`c` before the chunk. -/
def chunkSeg (cfg : Config) (c : String) (d : ChunkData) : List Action :=
  match d.selected_model_id with
  | some m => [.upsertSelectedModel m, .emit (.completion (.chunkData d))]
  | none =>
    match d.choices.head? with
    | none => []
    | some ch =>
      match ch.delta.bind DeltaObj.content with
      | some v =>
        if v = "" then [.emit (.completion (.chunkData d))]
        else
          if cfg.realtime then
            [.upsertContent (c ++ v), .emit (.completion (.chunkData d))]
          else
            [.emit (.completion (.contentOnly (c ++ v)))]
      | none => [.emit (.completion (.chunkData d))]

/-- Trace of one stream line when every emit succeeds. -/
def itemSeg (cfg : Config) (c : String) : StreamItem → List Action
  | .noise => []
  | .chunk d => chunkSeg cfg c d

/-- Trace of a stream segment when every emit succeeds, given the running
content before it. -/
def streamSeg (cfg : Config) (c : String) : List StreamItem → List Action
  | [] => []
  | it :: rest => itemSeg cfg c it ++ streamSeg cfg (c ++ itemDelta it) rest

/-- The idle-user webhook actions of the success path. -/
def webhookSeg (cfg : Config) (c : String) : List Action :=
  if cfg.userActive then []
  else
    match cfg.webhookUrl with
    | some _ => [.webhook cfg.title c]
    | none => []

/-- The success-path tail of the trace (when every emit succeeds): deferred
final save, webhook, the single terminal emit, background handoff. -/
def finalSeg (cfg : Config) (c : String) : List Action :=
  (if cfg.realtime then [] else [.upsertContent c]) ++ webhookSeg cfg c ++
    [.emit (.completion (.finalData c cfg.title)), .backgroundTasks]

/-- The cancellation tail of the trace (when the `task-cancelled` emit
succeeds): the signal, then the deferred partial save. -/
def cancelSeg (cfg : Config) (c : String) : List Action :=
  Action.emit .taskCancelled ::
    (if cfg.realtime then [] else [.upsertContent c])

/-- The cleanup call, present when the response declares one. -/
def cleanupSeg (cfg : Config) : List Action :=
  if cfg.hasBackground then [.cleanup] else []

/-! ## Background completion handler (`background_tasks_handler`) -/

/-- The title-generation sub-call's result:
`res["choices"][0].get("message", \x7b\x7d).get("content", ...)`; `none` for
an absent content key (falling back to the current message's content). -/
structure TitleRes where
  content : Option String := none

/-- The tag-generation sub-call's result content. -/
structure TagsRes where
  content : String := ""

/-- The `tasks` dict: presence and truthiness of `TASKS.TITLE_GENERATION`
and `TASKS.TAGS_GENERATION` (`none` = key absent). -/
structure TasksRec where
  titleTask : Option Bool := none
  tagsTask : Option Bool := none

/-- External collaborators of the background handler: the two inference
sub-calls (`none` models a falsy or non-dict `res`) and `json.loads(...)
.get("tags", [])` on the extracted substring (`none` = parse failure,
swallowed). -/
structure BgEnv where
  genTitleRes : Option TitleRes
  genTagsRes : Option TagsRes
  parseTags : String → Option (List String)

/-- Observable actions of the background completion handler. -/
inductive BgAction where
  | genTitleCall
  | setTitle (t : String)
  | emitTitle (d : String)
  | genTagsCall
  | setTags (tags : List String)
  | emitTags (tags : List String)
deriving DecidableEq

/-- `background_tasks_handler`: locate the current message and its ancestor
path (`message`, `messages` — results of the store lookups and
`get_message_list`, passed in already resolved), then run title and tag
generation as requested.  In the title branch with the task present but not
enabled and exactly two messages, the title is set from `messages[0]` while
the emitted `chat:title` event carries `message.get("content", ...)` — the
current message's content. -/
def background_tasks_handler (env : BgEnv) (message : Option MsgRec)
    (messages : List MsgRec) (tasks : Option TasksRec) : List BgAction :=
  match message with
  | none => []
  | some msg =>
    match tasks with
    | none => []
    | some ts =>
      let titleActions :=
        match ts.titleTask with
        | none => []
        | some true =>
          BgAction.genTitleCall ::
            (match env.genTitleRes with
             | none => []
             | some res =>
               let title0 := (res.content.getD (msg.content.getD "New Chat")).trim
               let title :=
                 if title0 = "" then
                   (messages.head?.bind MsgRec.content).getD "New Chat"
                 else title0
               [.setTitle title, .emitTitle title])
        | some false =>
          if messages.length = 2 then
            let title := (messages.head?.bind MsgRec.content).getD "New Chat"
            [.setTitle title, .emitTitle (msg.content.getD "New Chat")]
          else []
      let tagsActions :=
        match ts.tagsTask with
        | some true =>
          BgAction.genTagsCall ::
            (match env.genTagsRes with
             | none => []
             | some res =>
               match env.parseTags (extractBraced res.content) with
               | none => []
               | some tags => [.setTags tags, .emitTags tags])
        | _ => []
      titleActions ++ tagsActions

/-! ## Concrete instances used by counterexamples and witnesses -/

/-- A function table with two resolvable filters of priorities 2 and 1. -/
def c8table : String → Option FunctionRec := fun fid =>
  if fid = "a" then some ⟨some [("priority", 2)]⟩
  else if fid = "b" then some ⟨some [("priority", 1)]⟩
  else none

/-- Filter resolution environment with an unresolvable id among the globals. -/
def c8env : FilterEnv := ⟨c8table, ["a", "b", "ghost"], ["a", "b"], id⟩

/-- A model without `info.meta`. -/
def c8model : ModelDesc := ⟨none⟩

/-- Two filters: the first declares `file_handler = True`, the second
declares `file_handler = False`; neither has an `inlet`. -/
def c6resolve : String → Option FilterModule := fun fid =>
  if fid = "f1" then some ⟨some true, none⟩
  else if fid = "f2" then some ⟨some false, none⟩
  else none

/-- Environment resolving exactly the two filters, both enabled, equal
priority (so the chain order is f1 then f2). -/
def c6env : FilterEnv := ⟨fun _ => some ⟨none⟩, ["f1", "f2"], ["f1", "f2"], id⟩

/-- A model without `info.meta`. -/
def c6model : ModelDesc := ⟨none⟩

/-- An envelope with one attached file. -/
def c6body : Body := ⟨some ⟨[], some ["doc.txt"]⟩, 0⟩

/-- Tool-stage environment whose tool resolution (`get_tools`) raises. -/
def c7envCE : ToolsEnv := ⟨.ok (), .error (), .ok none, fun _ => none⟩

/-- An envelope declaring one tool id. -/
def c7body : Body := ⟨some ⟨["calc"], none⟩, 0⟩

/-- Tool-stage environment whose sub-call yields content with no JSON
object in it. -/
def c7envW : ToolsEnv := ⟨.ok (), .ok [], .ok (some "no json here"), fun _ => none⟩

/-- A resolved tool whose callable returns a non-string value. -/
def c10entry : ToolEntry :=
  ⟨["q"], fun _ => .ok .other, true, "kit", true⟩

/-- Tool-stage environment resolving `lookup` to `c10entry`, with a
sub-call that selects it. -/
def c10env : ToolsEnv :=
  ⟨.ok (), .ok [("lookup", c10entry)], .ok (some "{}"),
   fun _ => some ⟨some "lookup", [("q", .str "x")]⟩⟩

/-- A transport that always delivers. -/
def emitAll : Nat → Bool := fun _ => true

/-- Real-time persistence enabled, user active, no webhook, no cleanup
callback, reliable transport. -/
def cfgRT : Config := ⟨true, "T", true, none, false, emitAll⟩

/-- Real-time persistence disabled, user active, no webhook, cleanup
callback declared, reliable transport. -/
def cfgNRT : Config := ⟨false, "T", true, none, true, emitAll⟩

/-- Like `cfgNRT` but with a transport whose every delivery raises. -/
def cfgFail : Config := ⟨false, "T", true, none, true, fun _ => false⟩

/-- A well-formed delta chunk carrying content `v`. -/
def chunkOf (v : String) : StreamItem := .chunk ⟨none, [⟨some ⟨some v⟩⟩]⟩

/-- Background-handler environment that never reaches inference. -/
def c5env : BgEnv := ⟨none, none, fun _ => none⟩

/-! ## Generic lemmas -/

theorem lastD_append (l1 l2 : List String) (d : String) :
    lastD (l1 ++ l2) d = lastD l2 (lastD l1 d) := by
  simp [lastD, List.foldl_append]

theorem concatAll_append (l1 l2 : List String) :
    concatAll (l1 ++ l2) = concatAll l1 ++ concatAll l2 := by
  induction l1 with
  | nil => simp [concatAll, String.empty_append]
  | cons x xs ih =>
    simp only [concatAll, List.foldr_cons, List.cons_append] at *
    rw [ih, String.append_assoc]

theorem concatAll_nil : concatAll [] = "" := rfl

theorem concatAll_of_all_empty (l : List String) (h : ∀ x ∈ l, x = "") :
    concatAll l = "" := by
  induction l with
  | nil => rfl
  | cons x xs ih =>
    have hx : x = "" := h x (by simp)
    have : concatAll xs = "" := ih (fun y hy => h y (by simp [hy]))
    simp only [concatAll, List.foldr_cons] at *
    rw [this, hx, String.empty_append]

theorem mem_insertByKey {α : Type} (key : α → Int) (x a : α) (l : List α) :
    a ∈ insertByKey key x l ↔ a = x ∨ a ∈ l := by
  induction l with
  | nil => simp [insertByKey]
  | cons y ys ih =>
    by_cases h : key x ≤ key y
    · simp [insertByKey, h]
    · simp only [insertByKey, if_neg h, List.mem_cons, ih]
      tauto

theorem perm_insertByKey {α : Type} (key : α → Int) (x : α) (l : List α) :
    (insertByKey key x l).Perm (x :: l) := by
  induction l with
  | nil => simp [insertByKey]
  | cons y ys ih =>
    by_cases h : key x ≤ key y
    · simp [insertByKey, h]
    · simp only [insertByKey, if_neg h]
      exact (ih.cons y).trans (List.Perm.swap x y ys)

theorem perm_sortByKey {α : Type} (key : α → Int) (l : List α) :
    (sortByKey key l).Perm l := by
  induction l with
  | nil => simp [sortByKey]
  | cons x xs ih =>
    exact (perm_insertByKey key x (sortByKey key xs)).trans (ih.cons x)

theorem pairwise_insertByKey {α : Type} (key : α → Int) (x : α) (l : List α)
    (h : l.Pairwise (fun a b => key a ≤ key b)) :
    (insertByKey key x l).Pairwise (fun a b => key a ≤ key b) := by
  induction l with
  | nil => simp [insertByKey]
  | cons y ys ih =>
    rcases List.pairwise_cons.mp h with ⟨hy, hys⟩
    by_cases hxy : key x ≤ key y
    · rw [insertByKey, if_pos hxy]
      refine List.pairwise_cons.mpr ⟨?_, h⟩
      intro b hb
      rcases List.mem_cons.mp hb with rfl | hb
      · exact hxy
      · exact le_trans hxy (hy _ hb)
    · rw [insertByKey, if_neg hxy]
      refine List.pairwise_cons.mpr ⟨?_, ih hys⟩
      intro b hb
      rcases (mem_insertByKey key x b ys).mp hb with rfl | hb
      · omega
      · exact hy _ hb

theorem pairwise_sortByKey {α : Type} (key : α → Int) (l : List α) :
    (sortByKey key l).Pairwise (fun a b => key a ≤ key b) := by
  induction l with
  | nil => simp [sortByKey]
  | cons x xs ih => exact pairwise_insertByKey key x _ ih

theorem filter_insertByKey {α : Type} (key : α → Int) (p : Int) (x : α) (l : List α) :
    (insertByKey key x l).filter (fun a => key a == p) =
      if key x = p then x :: l.filter (fun a => key a == p)
      else l.filter (fun a => key a == p) := by
  induction l with
  | nil =>
    by_cases h : key x = p <;> simp [insertByKey, List.filter_cons, beq_iff_eq, h]
  | cons y ys ih =>
    by_cases hxy : key x ≤ key y
    · rw [insertByKey, if_pos hxy]
      by_cases h : key x = p <;>
        simp [List.filter_cons, beq_iff_eq, h]
    · rw [insertByKey, if_neg hxy]
      by_cases h : key x = p
      · have hy : ¬(key y = p) := by omega
        simp [List.filter_cons, beq_iff_eq, ih, h, hy]
      · simp [List.filter_cons, beq_iff_eq, ih, h]

theorem filter_sortByKey {α : Type} (key : α → Int) (p : Int) (l : List α) :
    (sortByKey key l).filter (fun a => key a == p) = l.filter (fun a => key a == p) := by
  induction l with
  | nil => rfl
  | cons x xs ih =>
    rw [sortByKey, filter_insertByKey]
    by_cases h : key x = p <;> simp [List.filter_cons, h, ih]

/-! ## C8: filter resolution order -/

theorem mem_enabled_of_mem_candidates (env : FilterEnv) (model : ModelDesc)
    (fid : String) (h : fid ∈ filterCandidates env model) : fid ∈ env.enabled := by
  unfold filterCandidates at h
  rcases List.mem_filter.mp h with ⟨-, hc⟩
  exact List.elem_iff.mp hc

/-- Claim C8: for every set of candidate filter identifiers, the resolved
execution order is a stable ascending sort by priority — the output is
sorted by priority, keeps the candidate order inside every priority class,
and is a permutation of the enabled candidates; the priority is read from
the installation-level valves with default 0, an unresolvable filter also
defaulting to 0; ids not among the enabled filter-type functions are
excluded regardless of configuration. -/
theorem C8_stable_priority_sort (env : FilterEnv) (model : ModelDesc) :
    (get_filter_function_ids env model).Pairwise
        (fun a b => get_priority env.table a ≤ get_priority env.table b)
    ∧ (∀ p : Int,
        (get_filter_function_ids env model).filter
            (fun i => get_priority env.table i == p) =
          (filterCandidates env model).filter
            (fun i => get_priority env.table i == p))
    ∧ (get_filter_function_ids env model).Perm (filterCandidates env model)
    ∧ (∀ fid, fid ∈ get_filter_function_ids env model → fid ∈ env.enabled)
    ∧ (∀ fid, env.table fid = none → get_priority env.table fid = 0) := by
  refine ⟨pairwise_sortByKey _ _, fun p => filter_sortByKey _ p _,
    perm_sortByKey _ _, fun fid hf => ?_, fun fid h => ?_⟩
  · exact mem_enabled_of_mem_candidates env model fid
      ((perm_sortByKey _ _).mem_iff.mp hf)
  · unfold get_priority
    rw [h]

theorem C8_witness :
    get_priority c8env.table "ghost" = 0 ∧ "b" ∈ c8env.enabled :=
  ⟨(C8_stable_priority_sort c8env c8model).2.2.2.2 "ghost" rfl,
   (C8_stable_priority_sort c8env c8model).2.2.2.1 "b" (by decide)⟩

/-! ## C6: file suppression by filters -/

theorem runFilterChain_skip (resolve : String → Option FilterModule) :
    ∀ (ids : List String) (s0 : Option Bool) (body : Body) (r : Option Bool × Body),
      runFilterChain resolve ids s0 body = .ok r →
      r.1 = ids.foldl
        (fun acc fid =>
          match resolve fid with
          | none => acc
          | some m =>
            match m.file_handler with
            | some b => some b
            | none => acc)
        s0 := by
  intro ids
  induction ids with
  | nil =>
    intro s0 body r h
    simp only [runFilterChain] at h
    cases h
    rfl
  | cons fid rest ih =>
    intro s0 body r h
    cases hres : resolve fid with
    | none =>
      simp only [runFilterChain, hres] at h
      simpa [List.foldl_cons, hres] using ih s0 body r h
    | some m =>
      cases hin : m.inlet with
      | none =>
        simp only [runFilterChain, hres, hin] at h
        simpa [List.foldl_cons, hres] using ih _ body r h
      | some hook =>
        cases hh : hook body with
        | ok body2 =>
          simp only [runFilterChain, hres, hin, hh] at h
          simpa [List.foldl_cons, hres] using ih _ body2 r h
        | error e =>
          simp only [runFilterChain, hres, hin, hh] at h
          cases h

/-- Claim C6 is false on the code: with two executed filters, the first
declaring the file-suppression capability truthy and the second declaring
it falsy, the attached-files entry survives the chain — a later filter's
declaration overrides an earlier request for suppression. -/
theorem C6_counterexample :
    chat_completion_filter_functions_handler c6env c6resolve c6model c6body =
        .ok c6body
      ∧ hasFiles c6body = true := by
  constructor
  · rfl
  · rfl

/-- Claim C6 (amended): after a chain run that completes without a hook
exception, the attached-files entry is removed from the envelope's metadata
iff the most recently executed filter that declares the file-suppression
capability declared it truthy (and files are attached) — later declarations
override earlier ones. -/
theorem C6_last_declared_wins (env : FilterEnv)
    (resolve : String → Option FilterModule) (model : ModelDesc) (body : Body)
    (skip_files : Option Bool) (body2 : Body)
    (h : runFilterChain resolve (get_filter_function_ids env model) none body =
          .ok (skip_files, body2)) :
    chat_completion_filter_functions_handler env resolve model body =
      .ok
        (if (lastFileHandler resolve (get_filter_function_ids env model)).getD false
              && hasFiles body2
         then deleteFiles body2
         else body2) := by
  have hsk := runFilterChain_skip resolve (get_filter_function_ids env model)
    none body (skip_files, body2) h
  unfold chat_completion_filter_functions_handler
  rw [h]
  dsimp only
  have : lastFileHandler resolve (get_filter_function_ids env model) = skip_files := by
    rw [lastFileHandler, ← hsk]
  rw [this]
  by_cases hc : skip_files.getD false && hasFiles body2
  · rw [if_pos hc, if_pos hc]
  · rw [if_neg hc, if_neg hc]

theorem C6_last_declared_wins_witness :
    chat_completion_filter_functions_handler c6env c6resolve c6model c6body =
      .ok
        (if (lastFileHandler c6resolve (get_filter_function_ids c6env c6model)).getD
              false && hasFiles c6body
         then deleteFiles c6body
         else c6body) :=
  C6_last_declared_wins c6env c6resolve c6model c6body (some false) c6body rfl

/-! ## C5: first-exchange title derivation -/

/-- Claim C5 evaluated at the failing input: in a two-message chat with the
title task present but not enabled, the title is set from the first
message's content ("Hello"), but the single `chat:title` event emitted
carries the current message's content ("Hi there!") — not the title. -/
theorem C5_eval_at_failing_input :
    background_tasks_handler c5env (some ⟨some "Hi there!"⟩)
        [⟨some "Hello"⟩, ⟨some "Hi there!"⟩] (some ⟨some false, none⟩) =
      [.setTitle "Hello", .emitTitle "Hi there!"]
    ∧ ("Hello" : String) ≠ "Hi there!" := by
  exact ⟨rfl, by decide⟩

/-! ## C7 and C10: tool invocation stage -/

/-- Claim C7 is false on the code as stated: tool resolution runs before the
stage's outer `try`, so a resolution failure raises out of
`chat_completion_tools_handler` instead of being absorbed by it. -/
theorem C7_counterexample :
    chat_completion_tools_handler c7envCE c7body = .error () := rfl

/-- Claim C7 (amended): when the sub-call's content is falsy, carries no
brace-delimited substring, fails to parse, or names a tool that is not
among the resolved tools, and likewise when the sub-call itself raises, the
stage returns the envelope unchanged with empty sources without raising;
a resolution failure, by contrast, raises out of the stage and is absorbed
one level up by `process_chat_payload`, with the same unchanged-envelope,
empty-sources result. -/
theorem C7_absorption :
    (∀ (env : ToolsEnv) (body : Body) (tl : List (String × ToolEntry)),
        env.taskModel = .ok () → env.tools = .ok tl →
        env.subCallContent = .error () →
        chat_completion_tools_handler env body = .ok (body, ⟨[]⟩))
    ∧ (∀ (env : ToolsEnv) (body : Body) (tl : List (String × ToolEntry)),
        env.taskModel = .ok () → env.tools = .ok tl →
        env.subCallContent = .ok none →
        chat_completion_tools_handler env body = .ok (body, ⟨[]⟩))
    ∧ (∀ (env : ToolsEnv) (body : Body) (tl : List (String × ToolEntry))
        (c : String),
        env.taskModel = .ok () → env.tools = .ok tl →
        env.subCallContent = .ok (some c) →
        (extractBraced c = "" ∨ env.parseJson (extractBraced c) = none ∨
          (∃ sel, env.parseJson (extractBraced c) = some sel ∧
            lookupTool tl sel.name = none)) →
        chat_completion_tools_handler env body = .ok (body, ⟨[]⟩))
    ∧ (∀ (env : ToolsEnv) (body : Body),
        chat_completion_tools_handler env body = .error () →
        payloadToolsStage env body = (body, [])) := by
  refine ⟨?_, ?_, ?_, ?_⟩
  · intro env body tl h1 h2 h3
    rcases body with ⟨meta, payload⟩
    rcases meta with _ | ⟨tids, files⟩
    · rfl
    · rcases tids with _ | ⟨t, ts⟩
      · rfl
      · unfold chat_completion_tools_handler toolsStageCore
        rw [h1, h2, h3]
  · intro env body tl h1 h2 h3
    rcases body with ⟨meta, payload⟩
    rcases meta with _ | ⟨tids, files⟩
    · rfl
    · rcases tids with _ | ⟨t, ts⟩
      · rfl
      · unfold chat_completion_tools_handler toolsStageCore
        rw [h1, h2, h3]
  · intro env body tl c h1 h2 h3 hsel
    rcases body with ⟨meta, payload⟩
    rcases meta with _ | ⟨tids, files⟩
    · rfl
    · rcases tids with _ | ⟨t, ts⟩
      · rfl
      · unfold chat_completion_tools_handler toolsStageCore
        rw [h1, h2, h3]
        dsimp only
        rcases hsel with he | hp | ⟨sel, hps, hl⟩
        · rw [he]
          rfl
        · by_cases hx : extractBraced c = ""
          · rw [hx]
            rfl
          · rw [if_neg hx, hp]
        · by_cases hx : extractBraced c = ""
          · rw [hx]
            rfl
          · rw [if_neg hx, hps]
            dsimp only
            rw [hl]
  · intro env body h
    unfold payloadToolsStage
    rw [h]

theorem C7_absorption_witness :
    chat_completion_tools_handler c7envW c7body = .ok (c7body, ⟨[]⟩) :=
  C7_absorption.2.2.1 c7envW c7body [] "no json here" rfl rfl rfl
    (Or.inl (by decide))

/-- Claim C10: only string tool outputs produce a Source Record.  A
non-string output appends no source, marks no file suppression, and leaves
the envelope unchanged with empty sources; a tool-raised exception is
stringified and therefore does produce a Source Record. -/
theorem C10_nonstring_tool_output :
    ∀ (env : ToolsEnv) (tids : List String) (files : Option (List String))
      (payload : Nat) (tl : List (String × ToolEntry))
      (c : String) (sel : ToolSel) (entry : ToolEntry),
      tids ≠ [] →
      env.taskModel = .ok () → env.tools = .ok tl →
      env.subCallContent = .ok (some c) →
      extractBraced c ≠ "" →
      env.parseJson (extractBraced c) = some sel →
      lookupTool tl sel.name = some entry →
      (entry.call (filterRequired entry sel.parameters) = .ok PyVal.other →
        chat_completion_tools_handler env ⟨some ⟨tids, files⟩, payload⟩ =
          .ok (⟨some ⟨tids, files⟩, payload⟩, ⟨[]⟩))
      ∧ (∀ e, entry.call (filterRequired entry sel.parameters) = .error e →
          chat_completion_tools_handler env ⟨some ⟨tids, files⟩, payload⟩ =
            .ok (applySkipFiles entry.file_handler ⟨some ⟨tids, files⟩, payload⟩,
                 ⟨[mkSource entry (sel.name.getD "") e]⟩)) := by
  intro env tids files payload tl c sel entry htid h1 h2 h3 he hp hl
  rcases tids with _ | ⟨t, ts⟩
  · exact absurd rfl htid
  constructor
  · intro hout
    unfold chat_completion_tools_handler toolsStageCore
    rw [h1, h2, h3]
    dsimp only
    rw [if_neg he, hp]
    dsimp only
    rw [hl]
    dsimp only
    rw [hout]
  · intro e hout
    unfold chat_completion_tools_handler toolsStageCore
    rw [h1, h2, h3]
    dsimp only
    rw [if_neg he, hp]
    dsimp only
    rw [hl]
    dsimp only
    rw [hout]

theorem C10_witness :
    chat_completion_tools_handler c10env c7body = .ok (c7body, ⟨[]⟩) :=
  (C10_nonstring_tool_output c10env ["calc"] none 0 [("lookup", c10entry)] "{}"
    ⟨some "lookup", [("q", .str "x")]⟩ c10entry (by decide) rfl rfl rfl
    (by decide) rfl rfl).1 rfl

/-! ## Streaming consumer: trace characterisation under a reliable transport -/

theorem emitCall_ok (cfg : Config) (s : RunState) (e : Emitted)
    (h : cfg.emitOk s.emitIdx = true) :
    emitCall cfg s e =
      ({ s with emitIdx := s.emitIdx + 1, trace := s.trace ++ [.emit e] }, true) := by
  simp [emitCall, h]

theorem replayEvents_ok (cfg : Config) (hemit : ∀ i, cfg.emitOk i = true) :
    ∀ (events : List EventJson) (s : RunState),
      (replayEvents cfg events s).2 = true
      ∧ (replayEvents cfg events s).1.trace = s.trace ++ replaySeg events
      ∧ (replayEvents cfg events s).1.content = s.content := by
  intro events
  induction events with
  | nil =>
    intro s
    refine ⟨rfl, ?_, rfl⟩
    simp [replayEvents, replaySeg]
  | cons e rest ih =>
    intro s
    rw [replayEvents, emitCall_ok cfg s _ (hemit _)]
    refine ⟨(ih _).1, ?_, (ih _).2.2⟩
    rw [(ih _).2.1]
    simp [replaySeg]

theorem processChunk_ok (cfg : Config) (hemit : ∀ i, cfg.emitOk i = true)
    (d : ChunkData) (s : RunState) :
    (processChunk cfg d s).trace = s.trace ++ chunkSeg cfg s.content d
    ∧ (processChunk cfg d s).content = s.content ++ itemDelta (.chunk d) := by
  unfold processChunk chunkSeg itemDelta
  cases hsel : d.selected_model_id with
  | some m => simp [emitCall, hemit, hsel, String.append_empty]
  | none =>
    cases hch : d.choices.head? with
    | none => simp [hsel, hch, String.append_empty]
    | some ch =>
      cases hdc : ch.delta.bind DeltaObj.content with
      | none => simp [emitCall, hemit, hsel, hch, hdc, String.append_empty]
      | some v =>
        by_cases hv : v = ""
        · simp [emitCall, hemit, hsel, hch, hdc, hv, String.append_empty]
        · by_cases hrt : cfg.realtime
          · simp [emitCall, hemit, hsel, hch, hdc, hv, hrt]
          · simp [emitCall, hemit, hsel, hch, hdc, hv, hrt]

theorem processItem_ok (cfg : Config) (hemit : ∀ i, cfg.emitOk i = true)
    (it : StreamItem) (s : RunState) :
    (processItem cfg it s).trace = s.trace ++ itemSeg cfg s.content it
    ∧ (processItem cfg it s).content = s.content ++ itemDelta it := by
  cases it with
  | noise =>
    exact ⟨by simp [processItem, itemSeg], by
      simp [processItem, itemDelta, String.append_empty]⟩
  | chunk d => exact processChunk_ok cfg hemit d s

theorem consumeStream_ok (cfg : Config) (hemit : ∀ i, cfg.emitOk i = true) :
    ∀ (items : List StreamItem) (ca : Option Nat) (s : RunState),
      (consumeStream cfg items ca s).1.trace =
          s.trace ++ streamSeg cfg s.content (processedItems items ca)
      ∧ (consumeStream cfg items ca s).1.content =
          s.content ++ streamDeltas (processedItems items ca)
      ∧ (consumeStream cfg items ca s).2 = cancelFiresB ca items := by
  intro items
  induction items with
  | nil =>
    intro ca s
    rcases ca with _ | k
    · exact ⟨by simp [consumeStream, processedItems, streamSeg],
        by simp [consumeStream, processedItems, streamDeltas, concatAll,
          String.append_empty],
        by simp [consumeStream, cancelFiresB]⟩
    · rcases k with _ | k
      · exact ⟨by simp [consumeStream, processedItems, streamSeg],
          by simp [consumeStream, processedItems, streamDeltas, concatAll,
            String.append_empty],
          by simp [consumeStream, cancelFiresB]⟩
      · exact ⟨by simp [consumeStream, processedItems, streamSeg],
          by simp [consumeStream, processedItems, streamDeltas, concatAll,
            String.append_empty],
          by simp [consumeStream, cancelFiresB]⟩
  | cons it rest ih =>
    intro ca s
    rcases ca with _ | k
    · have hrun : consumeStream cfg (it :: rest) none s =
          consumeStream cfg rest none (processItem cfg it s) := by
        simp [consumeStream, decCancel]
      obtain ⟨ht, hc, hf⟩ := ih none (processItem cfg it s)
      obtain ⟨pt, pc⟩ := processItem_ok cfg hemit it s
      refine ⟨?_, ?_, ?_⟩
      · rw [hrun, ht, pt, pc]
        simp [processedItems, streamSeg, List.append_assoc]
      · rw [hrun, hc, pc]
        simp [processedItems, streamDeltas, concatAll, String.append_assoc]
      · rw [hrun, hf]
        simp [cancelFiresB]
    · rcases k with _ | k
      · refine ⟨?_, ?_, ?_⟩
        · simp [consumeStream, processedItems, streamSeg]
        · simp [consumeStream, processedItems, streamDeltas, concatAll,
            String.append_empty]
        · simp [consumeStream, cancelFiresB]
      · have hrun : consumeStream cfg (it :: rest) (some (k + 1)) s =
            consumeStream cfg rest (some k) (processItem cfg it s) := by
          simp [consumeStream, decCancel]
        obtain ⟨ht, hc, hf⟩ := ih (some k) (processItem cfg it s)
        obtain ⟨pt, pc⟩ := processItem_ok cfg hemit it s
        refine ⟨?_, ?_, ?_⟩
        · rw [hrun, ht, pt, pc]
          simp [processedItems, streamSeg, List.append_assoc]
        · rw [hrun, hc, pc]
          simp [processedItems, streamDeltas, concatAll, String.append_assoc]
        · rw [hrun, hf]
          simp [cancelFiresB]

theorem finalizeSuccess_ok (cfg : Config) (hemit : ∀ i, cfg.emitOk i = true)
    (s : RunState) :
    (finalizeSuccess cfg s).2 = .success
    ∧ (finalizeSuccess cfg s).1.trace = s.trace ++ finalSeg cfg s.content := by
  unfold finalizeSuccess finalSeg webhookSeg
  by_cases hrt : cfg.realtime
  · by_cases hu : cfg.userActive
    · simp [emitCall, hemit, hrt, hu]
    · cases hw : cfg.webhookUrl with
      | some u => simp [emitCall, hemit, hrt, hu, hw]
      | none => simp [emitCall, hemit, hrt, hu, hw]
  · by_cases hu : cfg.userActive
    · simp [emitCall, hemit, hrt, hu]
    · cases hw : cfg.webhookUrl with
      | some u => simp [emitCall, hemit, hrt, hu, hw]
      | none => simp [emitCall, hemit, hrt, hu, hw]

theorem cancelPath_ok (cfg : Config) (hemit : ∀ i, cfg.emitOk i = true)
    (s : RunState) :
    (cancelPath cfg s).2 = .cancelled
    ∧ (cancelPath cfg s).1.trace = s.trace ++ cancelSeg cfg s.content := by
  unfold cancelPath cancelSeg
  by_cases hrt : cfg.realtime
  · simp [emitCall, hemit, hrt]
  · simp [emitCall, hemit, hrt]

theorem run_ok_success (cfg : Config) (msg : Option MsgRec)
    (events : List EventJson) (stream : List StreamItem) (ca : Option Nat)
    (hemit : ∀ i, cfg.emitOk i = true)
    (hnc : cancelFiresB ca stream = false) :
    post_response_handler cfg msg events stream ca =
      (replaySeg events
        ++ streamSeg cfg (initialContent msg) (processedItems stream ca)
        ++ finalSeg cfg
            (initialContent msg ++ streamDeltas (processedItems stream ca))
        ++ cleanupSeg cfg,
       .success) := by
  unfold post_response_handler
  obtain ⟨rb, rt, rc⟩ := replayEvents_ok cfg hemit events ⟨initialContent msg, 0, []⟩
  rcases hr : replayEvents cfg events ⟨initialContent msg, 0, []⟩ with ⟨s1, b1⟩
  rw [hr] at rb rt rc
  dsimp only at rb rt rc
  subst rb
  obtain ⟨ct, cc, cf⟩ := consumeStream_ok cfg hemit stream ca s1
  rcases hcs : consumeStream cfg stream ca s1 with ⟨s2, b2⟩
  rw [hcs] at ct cc cf
  dsimp only at ct cc cf
  rw [hnc] at cf
  subst cf
  obtain ⟨fo, ft⟩ := finalizeSuccess_ok cfg hemit s2
  rcases hfs : finalizeSuccess cfg s2 with ⟨s3, o3⟩
  rw [hfs] at fo ft
  dsimp only at fo ft
  subst fo
  dsimp only
  rw [hr]
  dsimp only
  rw [hcs]
  dsimp only
  rw [hfs]
  dsimp only
  rw [ft, ct, cc, rt, rc]
  cases hbg : cfg.hasBackground with
  | true =>
    rw [if_pos rfl]
    simp [cleanupSeg, hbg, List.append_assoc]
  | false =>
    rw [if_neg (by simp)]
    simp [cleanupSeg, hbg, List.append_assoc]

theorem run_ok_cancel (cfg : Config) (msg : Option MsgRec)
    (events : List EventJson) (stream : List StreamItem) (ca : Option Nat)
    (hemit : ∀ i, cfg.emitOk i = true)
    (hc : cancelFiresB ca stream = true) :
    post_response_handler cfg msg events stream ca =
      (replaySeg events
        ++ streamSeg cfg (initialContent msg) (processedItems stream ca)
        ++ cancelSeg cfg
            (initialContent msg ++ streamDeltas (processedItems stream ca))
        ++ cleanupSeg cfg,
       .cancelled) := by
  unfold post_response_handler
  obtain ⟨rb, rt, rc⟩ := replayEvents_ok cfg hemit events ⟨initialContent msg, 0, []⟩
  rcases hr : replayEvents cfg events ⟨initialContent msg, 0, []⟩ with ⟨s1, b1⟩
  rw [hr] at rb rt rc
  dsimp only at rb rt rc
  subst rb
  obtain ⟨ct, cc, cf⟩ := consumeStream_ok cfg hemit stream ca s1
  rcases hcs : consumeStream cfg stream ca s1 with ⟨s2, b2⟩
  rw [hcs] at ct cc cf
  dsimp only at ct cc cf
  rw [hc] at cf
  subst cf
  obtain ⟨po, pt⟩ := cancelPath_ok cfg hemit s2
  rcases hcp : cancelPath cfg s2 with ⟨s3, o3⟩
  rw [hcp] at po pt
  dsimp only at po pt
  subst po
  dsimp only
  rw [hr]
  dsimp only
  rw [hcs]
  dsimp only
  rw [hcp]
  dsimp only
  rw [pt, ct, cc, rt, rc]
  cases hbg : cfg.hasBackground with
  | true =>
    rw [if_pos rfl]
    simp [cleanupSeg, hbg, List.append_assoc]
  | false =>
    rw [if_neg (by simp)]
    simp [cleanupSeg, hbg, List.append_assoc]

/-! ## Trace observer lemmas -/

theorem contentWrites_append (t1 t2 : List Action) :
    contentWrites (t1 ++ t2) = contentWrites t1 ++ contentWrites t2 :=
  List.filterMap_append t1 t2 _

theorem completionEmits_append (t1 t2 : List Action) :
    completionEmits (t1 ++ t2) = completionEmits t1 ++ completionEmits t2 :=
  List.filterMap_append t1 t2 _

theorem contentWrites_replaySeg (events : List EventJson)
    (hev : ∀ e ∈ events, e.content = none) :
    contentWrites (replaySeg events) = [] := by
  induction events with
  | nil => rfl
  | cons e rest ih =>
    have he : e.content = none := hev e (by simp)
    simp only [replaySeg]
    show contentWrites (Action.emit (.completion (.replay e)) ::
      Action.upsertEvent e :: replaySeg rest) = []
    simp only [contentWrites, List.filterMap_cons]
    rw [he]
    exact ih (fun x hx => hev x (by simp [hx]))

theorem contentWrites_streamSeg_deferred (cfg : Config)
    (hrt : cfg.realtime = false) :
    ∀ (items : List StreamItem) (c : String),
      contentWrites (streamSeg cfg c items) = [] := by
  intro items
  induction items with
  | nil => intro c; rfl
  | cons it rest ih =>
    intro c
    rw [streamSeg, contentWrites_append, ih]
    cases it with
    | noise => rfl
    | chunk d =>
      show contentWrites (chunkSeg cfg c d) ++ [] = []
      unfold chunkSeg
      cases hsel : d.selected_model_id with
      | some m => simp [contentWrites]
      | none =>
        cases hch : d.choices.head? with
        | none => simp [contentWrites]
        | some ch =>
          cases hdc : ch.delta.bind DeltaObj.content with
          | none => simp [hdc, contentWrites]
          | some v =>
            by_cases hv : v = ""
            · simp [hdc, hv, contentWrites]
            · simp [hdc, hv, hrt, contentWrites]

theorem lastD_contentWrites_streamSeg (cfg : Config)
    (hrt : cfg.realtime = true) :
    ∀ (items : List StreamItem) (c : String),
      lastD (contentWrites (streamSeg cfg c items)) c = c ++ streamDeltas items := by
  intro items
  induction items with
  | nil =>
    intro c
    simp [streamSeg, streamDeltas, concatAll, contentWrites, lastD,
      String.append_empty]
  | cons it rest ih =>
    intro c
    rw [streamSeg, contentWrites_append, lastD_append]
    have htail : streamDeltas (it :: rest) = itemDelta it ++ streamDeltas rest := rfl
    rw [htail]
    have hstep : lastD (contentWrites (itemSeg cfg c it)) c = c ++ itemDelta it := by
      cases it with
      | noise => simp [itemSeg, contentWrites, lastD, itemDelta, String.append_empty]
      | chunk d =>
        show lastD (contentWrites (chunkSeg cfg c d)) c = c ++ itemDelta (.chunk d)
        unfold chunkSeg itemDelta
        cases hsel : d.selected_model_id with
        | some m => simp [hsel, contentWrites, lastD, String.append_empty]
        | none =>
          cases hch : d.choices.head? with
          | none => simp [hsel, hch, contentWrites, lastD, String.append_empty]
          | some ch =>
            cases hdc : ch.delta.bind DeltaObj.content with
            | none => simp [hsel, hch, hdc, contentWrites, lastD, String.append_empty]
            | some v =>
              by_cases hv : v = ""
              · simp [hsel, hch, hdc, hv, contentWrites, lastD, String.append_empty]
              · simp [hsel, hch, hdc, hv, hrt, contentWrites, lastD]
    rw [hstep, ih (c ++ itemDelta it), String.append_assoc]

theorem contentWrites_finalSeg (cfg : Config) (c : String) :
    contentWrites (finalSeg cfg c) = if cfg.realtime then [] else [c] := by
  unfold finalSeg webhookSeg
  by_cases hrt : cfg.realtime
  · by_cases hu : cfg.userActive
    · simp [hrt, hu, contentWrites]
    · cases hw : cfg.webhookUrl <;> simp [hrt, hu, hw, contentWrites]
  · by_cases hu : cfg.userActive
    · simp [hrt, hu, contentWrites]
    · cases hw : cfg.webhookUrl <;> simp [hrt, hu, hw, contentWrites]

theorem contentWrites_cancelSeg (cfg : Config) (c : String) :
    contentWrites (cancelSeg cfg c) = if cfg.realtime then [] else [c] := by
  unfold cancelSeg
  by_cases hrt : cfg.realtime <;> simp [hrt, contentWrites]

theorem contentWrites_cleanupSeg (cfg : Config) :
    contentWrites (cleanupSeg cfg) = [] := by
  unfold cleanupSeg
  by_cases hbg : cfg.hasBackground <;> simp [hbg, contentWrites]

theorem midAction_replaySeg (events : List EventJson) :
    ∀ a ∈ replaySeg events, midAction a = true := by
  induction events with
  | nil => intro a ha; cases ha
  | cons e rest ih =>
    intro a ha
    rcases ha with _ | ⟨_, ha⟩
    · rfl
    · rcases ha with _ | ⟨_, ha⟩
      · rfl
      · exact ih a ha

theorem midAction_chunkSeg (cfg : Config) (c : String) (d : ChunkData) :
    ∀ a ∈ chunkSeg cfg c d, midAction a = true := by
  unfold chunkSeg
  cases hsel : d.selected_model_id with
  | some m =>
    dsimp only
    intro a ha
    fin_cases ha <;> rfl
  | none =>
    dsimp only
    cases hch : d.choices.head? with
    | none => intro a ha; cases ha
    | some ch =>
      dsimp only
      cases hdc : ch.delta.bind DeltaObj.content with
      | none =>
        dsimp only
        intro a ha
        fin_cases ha <;> rfl
      | some v =>
        dsimp only
        by_cases hv : v = ""
        · rw [if_pos hv]
          intro a ha
          fin_cases ha <;> rfl
        · rw [if_neg hv]
          by_cases hrt : cfg.realtime = true
          · rw [if_pos hrt]
            intro a ha
            fin_cases ha <;> rfl
          · rw [if_neg hrt]
            intro a ha
            fin_cases ha <;> rfl

theorem midAction_streamSeg (cfg : Config) :
    ∀ (items : List StreamItem) (c : String),
      ∀ a ∈ streamSeg cfg c items, midAction a = true := by
  intro items
  induction items with
  | nil => intro c a ha; cases ha
  | cons it rest ih =>
    intro c a ha
    rw [streamSeg] at ha
    rcases List.mem_append.mp ha with ha | ha
    · cases it with
      | noise => cases ha
      | chunk d => exact midAction_chunkSeg cfg c d a ha
    · exact ih _ a ha

theorem completionEmits_replaySeg (events : List EventJson) :
    completionEmits (replaySeg events) = events.map EmitData.replay := by
  induction events with
  | nil => rfl
  | cons e rest ih =>
    show completionEmits (Action.emit (.completion (.replay e)) ::
      Action.upsertEvent e :: replaySeg rest) = _
    simp only [completionEmits, List.filterMap_cons] at *
    rw [ih]
    rfl

theorem emittedDeltas_streamSeg (cfg : Config) (hrt : cfg.realtime = true) :
    ∀ (items : List StreamItem) (c : String),
      (∀ it ∈ items, selDeltaFree it = true) →
      concatAll ((completionEmits (streamSeg cfg c items)).map emitDelta) =
        streamDeltas items := by
  intro items
  induction items with
  | nil => intro c _; rfl
  | cons it rest ih =>
    intro c hsel
    rw [streamSeg, completionEmits_append, List.map_append, concatAll_append]
    have htail : concatAll ((completionEmits
        (streamSeg cfg (c ++ itemDelta it) rest)).map emitDelta) =
        streamDeltas rest :=
      ih _ (fun x hx => hsel x (by simp [hx]))
    rw [htail]
    have hhead : concatAll ((completionEmits (itemSeg cfg c it)).map emitDelta) =
        itemDelta it := by
      cases it with
      | noise => simp [itemSeg, completionEmits, concatAll, itemDelta]
      | chunk d =>
        have hfree := hsel (.chunk d) (by simp)
        show concatAll ((completionEmits (chunkSeg cfg c d)).map emitDelta) =
          itemDelta (.chunk d)
        unfold chunkSeg itemDelta
        cases hsel2 : d.selected_model_id with
        | some m =>
          have hfree2 : emitDelta (.chunkData d) = "" := by
            simp only [selDeltaFree, hsel2, decide_eq_true_eq] at hfree
            exact hfree
          simp [hsel2, completionEmits, concatAll, hfree2, String.append_empty]
        | none =>
          cases hch : d.choices.head? with
          | none => simp [hsel2, hch, completionEmits, concatAll]
          | some ch =>
            cases hdc : ch.delta.bind DeltaObj.content with
            | none =>
              simp [hsel2, hch, hdc, completionEmits, concatAll, emitDelta,
                String.append_empty]
            | some v =>
              by_cases hv : v = ""
              · simp [hsel2, hch, hdc, hv, completionEmits, concatAll, emitDelta,
                  String.append_empty]
              · simp [hsel2, hch, hdc, hv, hrt, completionEmits, concatAll,
                  emitDelta, String.append_empty]
    rw [hhead]
    rfl

theorem isFinalEmit_eq_false_of_mid (a : Action) (h : midAction a = true) :
    isFinalEmit a = false := by
  cases a with
  | emit e =>
    cases e with
    | completion d =>
      cases d with
      | replay e => rfl
      | chunkData d => rfl
      | contentOnly c => rfl
      | finalData c t => simp [midAction] at h
    | taskCancelled => rfl
  | upsertEvent e => rfl
  | upsertSelectedModel m => rfl
  | upsertContent c => rfl
  | webhook t c => rfl
  | backgroundTasks => rfl
  | cleanup => rfl

theorem isCancelEmit_eq_false_of_mid (a : Action) (h : midAction a = true) :
    isCancelEmit a = false := by
  cases a with
  | emit e =>
    cases e with
    | completion d =>
      cases d with
      | replay e => rfl
      | chunkData d => rfl
      | contentOnly c => rfl
      | finalData c t => simp [midAction] at h
    | taskCancelled => simp [midAction] at h
  | upsertEvent e => rfl
  | upsertSelectedModel m => rfl
  | upsertContent c => rfl
  | webhook t c => rfl
  | backgroundTasks => rfl
  | cleanup => rfl

theorem ne_cleanup_of_mid (a : Action) (h : midAction a = true) :
    a ≠ Action.cleanup := by
  intro he
  rw [he] at h
  simp [midAction] at h

theorem countP_isFinal_finalSeg (cfg : Config) (c : String) :
    (finalSeg cfg c).countP isFinalEmit = 1 := by
  unfold finalSeg webhookSeg
  by_cases hrt : cfg.realtime = true
  · by_cases hu : cfg.userActive = true
    · simp [hrt, hu, List.countP_cons, List.countP_append, isFinalEmit]
    · cases hw : cfg.webhookUrl <;>
        simp [hrt, hu, hw, List.countP_cons, List.countP_append, isFinalEmit]
  · by_cases hu : cfg.userActive = true
    · simp [hrt, hu, List.countP_cons, List.countP_append, isFinalEmit]
    · cases hw : cfg.webhookUrl <;>
        simp [hrt, hu, hw, List.countP_cons, List.countP_append, isFinalEmit]

theorem mem_finalEmit_finalSeg (cfg : Config) (c : String) :
    Action.emit (.completion (.finalData c cfg.title)) ∈ finalSeg cfg c := by
  unfold finalSeg webhookSeg
  by_cases hrt : cfg.realtime = true
  · by_cases hu : cfg.userActive = true
    · simp [hrt, hu]
    · cases hw : cfg.webhookUrl <;> simp [hrt, hu, hw]
  · by_cases hu : cfg.userActive = true
    · simp [hrt, hu]
    · cases hw : cfg.webhookUrl <;> simp [hrt, hu, hw]

theorem completionEmits_finalSeg (cfg : Config) (c : String) :
    completionEmits (finalSeg cfg c) = [.finalData c cfg.title] := by
  unfold finalSeg webhookSeg
  by_cases hrt : cfg.realtime = true
  · by_cases hu : cfg.userActive = true
    · simp [hrt, hu, completionEmits]
    · cases hw : cfg.webhookUrl <;> simp [hrt, hu, hw, completionEmits]
  · by_cases hu : cfg.userActive = true
    · simp [hrt, hu, completionEmits]
    · cases hw : cfg.webhookUrl <;> simp [hrt, hu, hw, completionEmits]

theorem completionEmits_cleanupSeg (cfg : Config) :
    completionEmits (cleanupSeg cfg) = [] := by
  unfold cleanupSeg
  by_cases hbg : cfg.hasBackground = true <;> simp [hbg, completionEmits]

theorem cleanup_not_mem_finalSeg (cfg : Config) (c : String) :
    Action.cleanup ∉ finalSeg cfg c := by
  unfold finalSeg webhookSeg
  by_cases hrt : cfg.realtime = true
  · by_cases hu : cfg.userActive = true
    · simp [hrt, hu]
    · cases hw : cfg.webhookUrl <;> simp [hrt, hu, hw]
  · by_cases hu : cfg.userActive = true
    · simp [hrt, hu]
    · cases hw : cfg.webhookUrl <;> simp [hrt, hu, hw]

theorem cleanup_not_mem_cancelSeg (cfg : Config) (c : String) :
    Action.cleanup ∉ cancelSeg cfg c := by
  unfold cancelSeg
  by_cases hrt : cfg.realtime = true <;> simp [hrt]

theorem countP_isFinal_cancelSeg (cfg : Config) (c : String) :
    (cancelSeg cfg c).countP isFinalEmit = 0 := by
  unfold cancelSeg
  by_cases hrt : cfg.realtime = true <;>
    simp [hrt, List.countP_cons, isFinalEmit]

theorem countP_isCancel_cancelSeg (cfg : Config) (c : String) :
    (cancelSeg cfg c).countP isCancelEmit = 1 := by
  unfold cancelSeg
  by_cases hrt : cfg.realtime = true <;>
    simp [hrt, List.countP_cons, isCancelEmit]

theorem countP_isCancel_cleanupSeg (cfg : Config) :
    (cleanupSeg cfg).countP isCancelEmit = 0 := by
  unfold cleanupSeg
  by_cases hbg : cfg.hasBackground = true <;>
    simp [hbg, List.countP_cons, isCancelEmit]

theorem countP_isFinal_cleanupSeg (cfg : Config) :
    (cleanupSeg cfg).countP isFinalEmit = 0 := by
  unfold cleanupSeg
  by_cases hbg : cfg.hasBackground = true <;>
    simp [hbg, List.countP_cons, isFinalEmit]

theorem countP_zero_of_mid (t : List Action) (p : Action → Bool)
    (hmid : ∀ a ∈ t, midAction a = true)
    (hp : ∀ a, midAction a = true → p a = false) :
    t.countP p = 0 :=
  List.countP_eq_zero.mpr (fun a ha => by rw [hp a (hmid a ha)]; simp)

/-! ## C1: delta concatenation vs final persisted content -/

/-- Claim C1 is false on the code: (a) with real-time persistence enabled
and a non-empty previously persisted content "X", the deltas of the emitted
`chat:completion` events concatenate to "a" while the final persisted
content is "Xa"; (b) with real-time persistence disabled, delta-bearing
emissions are replaced by cumulative-content payloads, so the emitted delta
concatenation is empty while the final persisted content is "ab". -/
theorem C1_counterexample :
    (emittedDeltas
        (post_response_handler cfgRT (some ⟨some "X"⟩) [] [chunkOf "a"] none).1 = "a"
      ∧ finalPersisted "X"
          (post_response_handler cfgRT (some ⟨some "X"⟩) [] [chunkOf "a"] none).1 = "Xa"
      ∧ emittedDeltas
          (post_response_handler cfgRT (some ⟨some "X"⟩) [] [chunkOf "a"] none).1 ≠
        finalPersisted "X"
          (post_response_handler cfgRT (some ⟨some "X"⟩) [] [chunkOf "a"] none).1)
    ∧ (emittedDeltas
        (post_response_handler cfgNRT none [] [chunkOf "a", chunkOf "b"] none).1 = ""
      ∧ finalPersisted ""
          (post_response_handler cfgNRT none [] [chunkOf "a", chunkOf "b"] none).1 = "ab"
      ∧ emittedDeltas
          (post_response_handler cfgNRT none [] [chunkOf "a", chunkOf "b"] none).1 ≠
        finalPersisted ""
          (post_response_handler cfgNRT none [] [chunkOf "a", chunkOf "b"] none).1) := by
  refine ⟨⟨rfl, rfl, by decide⟩, ⟨rfl, rfl, by decide⟩⟩

/-- Claim C1 (amended): for every streaming turn that runs to stream
exhaustion over a reliable transport, the final persisted content equals the
content persisted at the start of the routine followed by the stream's
content deltas concatenated in delivery order; when real-time persistence is
enabled, the emitted `chat:completion` events carry exactly those deltas
(when disabled, delta-bearing emissions carry the cumulative content
instead, so the claim's delta concatenation misses the initial prefix or the
deltas altogether). -/
theorem C1_amended (cfg : Config) (msg : Option MsgRec) (events : List EventJson)
    (stream : List StreamItem)
    (hemit : ∀ i, cfg.emitOk i = true)
    (hev1 : ∀ e ∈ events, e.content = none)
    (hev2 : ∀ e ∈ events, e.deltaContent = none)
    (hsel : ∀ it ∈ stream, selDeltaFree it = true) :
    (post_response_handler cfg msg events stream none).2 = .success
    ∧ finalPersisted (initialContent msg)
        (post_response_handler cfg msg events stream none).1 =
      initialContent msg ++ streamDeltas stream
    ∧ (cfg.realtime = true →
        emittedDeltas (post_response_handler cfg msg events stream none).1 =
          streamDeltas stream) := by
  have hrun := run_ok_success cfg msg events stream none hemit rfl
  have hproc : processedItems stream none = stream := rfl
  rw [hproc] at hrun
  refine ⟨by rw [hrun], ?_, ?_⟩
  · rw [hrun]
    unfold finalPersisted
    rw [contentWrites_append, contentWrites_append, contentWrites_append,
      contentWrites_replaySeg events hev1, contentWrites_cleanupSeg,
      contentWrites_finalSeg]
    by_cases hrt : cfg.realtime = true
    · rw [if_pos hrt]
      simp only [List.nil_append, List.append_nil]
      exact lastD_contentWrites_streamSeg cfg hrt stream (initialContent msg)
    · have hrtf : cfg.realtime = false := by
        cases hcfg : cfg.realtime
        · rfl
        · exact absurd hcfg hrt
      rw [if_neg hrt,
        contentWrites_streamSeg_deferred cfg hrtf stream (initialContent msg)]
      simp [lastD]
  · intro hrt
    rw [hrun]
    unfold emittedDeltas
    rw [completionEmits_append, completionEmits_append, completionEmits_append,
      completionEmits_replaySeg, completionEmits_finalSeg,
      completionEmits_cleanupSeg]
    rw [List.map_append, List.map_append, List.map_append,
      concatAll_append, concatAll_append, concatAll_append]
    have h1 : concatAll ((events.map EmitData.replay).map emitDelta) = "" := by
      apply concatAll_of_all_empty
      intro x hx
      rcases List.mem_map.mp hx with ⟨d, hd, rfl⟩
      rcases List.mem_map.mp hd with ⟨e, he, rfl⟩
      have := hev2 e he
      simp [emitDelta, this]
    have h2 : concatAll ((completionEmits
        (streamSeg cfg (initialContent msg) stream)).map emitDelta) =
        streamDeltas stream :=
      emittedDeltas_streamSeg cfg hrt stream (initialContent msg) hsel
    have h3 : concatAll ([EmitData.finalData
        (initialContent msg ++ streamDeltas stream) cfg.title].map emitDelta) = "" := by
      simp [concatAll, emitDelta, String.append_empty]
    rw [h1, h2, h3]
    simp [concatAll, String.empty_append, String.append_empty]

theorem C1_amended_witness :
    (post_response_handler cfgRT (some ⟨some "X"⟩) [] [chunkOf "a"] none).2 = .success
    ∧ finalPersisted (initialContent (some ⟨some "X"⟩))
        (post_response_handler cfgRT (some ⟨some "X"⟩) [] [chunkOf "a"] none).1 =
      initialContent (some ⟨some "X"⟩) ++ streamDeltas [chunkOf "a"]
    ∧ (cfgRT.realtime = true →
        emittedDeltas
            (post_response_handler cfgRT (some ⟨some "X"⟩) [] [chunkOf "a"] none).1 =
          streamDeltas [chunkOf "a"]) :=
  C1_amended cfgRT (some ⟨some "X"⟩) [] [chunkOf "a"] (fun _ => rfl)
    (by simp) (by simp) (by decide)

/-! ## C2: the terminal event of the success path -/

/-- Claim C2 is false on the code: on a concrete success run the terminal
done event is emitted exactly once, not twice. -/
theorem C2_counterexample :
    (post_response_handler cfgNRT none [] [chunkOf "a"] none).1.countP isFinalEmit = 1
    ∧ (post_response_handler cfgNRT none [] [chunkOf "a"] none).1.countP isFinalEmit ≠ 2 := by
  refine ⟨by decide, by decide⟩

/-- Claim C2 (amended): on stream exhaustion over a reliable transport the
consumer reads the chat title, persists the final content when real-time
persistence is disabled, fires the idle-user webhook when applicable, then
emits the terminal done event exactly once — in that order, and once in
total, not twice — and finally hands off to the background completion
handler (with the cleanup call last when declared). -/
theorem C2_amended (cfg : Config) (msg : Option MsgRec) (events : List EventJson)
    (stream : List StreamItem)
    (hemit : ∀ i, cfg.emitOk i = true) :
    ∃ p, post_response_handler cfg msg events stream none =
        (p ++ finalSeg cfg (initialContent msg ++ streamDeltas stream)
           ++ cleanupSeg cfg, .success)
      ∧ (∀ a ∈ p, midAction a = true)
      ∧ (post_response_handler cfg msg events stream none).1.countP isFinalEmit = 1 := by
  have hrun := run_ok_success cfg msg events stream none hemit rfl
  have hproc : processedItems stream none = stream := rfl
  rw [hproc] at hrun
  refine ⟨replaySeg events ++ streamSeg cfg (initialContent msg) stream,
    ?_, ?_, ?_⟩
  · rw [hrun]
  · intro a ha
    rcases List.mem_append.mp ha with ha | ha
    · exact midAction_replaySeg events a ha
    · exact midAction_streamSeg cfg stream (initialContent msg) a ha
  · rw [hrun]
    simp only [List.countP_append]
    rw [countP_isFinal_finalSeg, countP_isFinal_cleanupSeg,
      countP_zero_of_mid _ _ (midAction_replaySeg events)
        isFinalEmit_eq_false_of_mid,
      countP_zero_of_mid _ _ (midAction_streamSeg cfg stream (initialContent msg))
        isFinalEmit_eq_false_of_mid]

theorem C2_amended_witness :
    ∃ p, post_response_handler cfgNRT none [] [chunkOf "a"] none =
        (p ++ finalSeg cfgNRT (initialContent none ++ streamDeltas [chunkOf "a"])
           ++ cleanupSeg cfgNRT, .success)
      ∧ (∀ a ∈ p, midAction a = true)
      ∧ (post_response_handler cfgNRT none [] [chunkOf "a"] none).1.countP
          isFinalEmit = 1 :=
  C2_amended cfgNRT none [] [chunkOf "a"] (fun _ => rfl)

/-! ## C3: deferred persistence writes exactly once on success -/

/-- Claim C3: with real-time persistence disabled (and content-free replay
events), a run to stream exhaustion over a reliable transport performs
exactly one persisted write to the message's content — at stream
exhaustion, carrying the full accumulated content — and the terminal done
event carries that same content. -/
theorem C3_single_final_write (cfg : Config) (msg : Option MsgRec)
    (events : List EventJson) (stream : List StreamItem)
    (hemit : ∀ i, cfg.emitOk i = true)
    (hrt : cfg.realtime = false)
    (hev : ∀ e ∈ events, e.content = none) :
    (post_response_handler cfg msg events stream none).2 = .success
    ∧ contentWrites (post_response_handler cfg msg events stream none).1 =
        [initialContent msg ++ streamDeltas stream]
    ∧ Action.emit (.completion (.finalData
          (initialContent msg ++ streamDeltas stream) cfg.title))
        ∈ (post_response_handler cfg msg events stream none).1 := by
  have hrun := run_ok_success cfg msg events stream none hemit rfl
  have hproc : processedItems stream none = stream := rfl
  rw [hproc] at hrun
  refine ⟨by rw [hrun], ?_, ?_⟩
  · rw [hrun]
    rw [contentWrites_append, contentWrites_append, contentWrites_append,
      contentWrites_replaySeg events hev, contentWrites_cleanupSeg,
      contentWrites_finalSeg,
      contentWrites_streamSeg_deferred cfg hrt stream (initialContent msg)]
    rw [if_neg (by rw [hrt]; exact Bool.false_ne_true)]
    simp
  · rw [hrun]
    simp only [List.mem_append]
    exact Or.inl (Or.inr (mem_finalEmit_finalSeg cfg _))

theorem C3_single_final_write_witness :
    (post_response_handler cfgNRT none []
        [chunkOf "a", chunkOf "b", chunkOf "c"] none).2 = .success
    ∧ contentWrites (post_response_handler cfgNRT none []
        [chunkOf "a", chunkOf "b", chunkOf "c"] none).1 =
      [initialContent none ++ streamDeltas [chunkOf "a", chunkOf "b", chunkOf "c"]]
    ∧ Action.emit (.completion (.finalData
          (initialContent none ++ streamDeltas [chunkOf "a", chunkOf "b", chunkOf "c"])
          cfgNRT.title))
        ∈ (post_response_handler cfgNRT none []
            [chunkOf "a", chunkOf "b", chunkOf "c"] none).1 :=
  C3_single_final_write cfgNRT none [] [chunkOf "a", chunkOf "b", chunkOf "c"]
    (fun _ => rfl) rfl (by simp)

/-! ## C4: cancellation mid-stream -/

/-- Claim C4: if the task is cancelled mid-stream (over a reliable
transport, with real-time persistence disabled and content-free replay
events), the consumer emits a `task-cancelled` event followed only by the
single persisted content write carrying the partial accumulated content
(and the cleanup call); no terminal done event is emitted, no event follows
the cancellation signal, and the cancellation path emits nothing but the
`task-cancelled` signal itself. -/
theorem C4_cancellation_partial_save (cfg : Config) (msg : Option MsgRec)
    (events : List EventJson) (stream : List StreamItem) (k : Nat)
    (hemit : ∀ i, cfg.emitOk i = true)
    (hrt : cfg.realtime = false)
    (hev : ∀ e ∈ events, e.content = none)
    (hk : cancelFiresB (some k) stream = true) :
    (post_response_handler cfg msg events stream (some k)).2 = .cancelled
    ∧ (∃ p, (post_response_handler cfg msg events stream (some k)).1 =
          p ++ [Action.emit .taskCancelled,
                Action.upsertContent (initialContent msg ++ streamDeltas (stream.take k))]
            ++ cleanupSeg cfg
        ∧ ∀ a ∈ p, midAction a = true)
    ∧ contentWrites (post_response_handler cfg msg events stream (some k)).1 =
        [initialContent msg ++ streamDeltas (stream.take k)]
    ∧ (post_response_handler cfg msg events stream (some k)).1.countP isFinalEmit = 0
    ∧ (post_response_handler cfg msg events stream (some k)).1.countP isCancelEmit = 1 := by
  have hrun := run_ok_cancel cfg msg events stream (some k) hemit hk
  have hproc : processedItems stream (some k) = stream.take k := rfl
  rw [hproc] at hrun
  have hcseg : cancelSeg cfg (initialContent msg ++ streamDeltas (stream.take k)) =
      [Action.emit .taskCancelled,
       Action.upsertContent (initialContent msg ++ streamDeltas (stream.take k))] := by
    unfold cancelSeg
    rw [if_neg (by rw [hrt]; exact Bool.false_ne_true)]
  refine ⟨by rw [hrun], ?_, ?_, ?_, ?_⟩
  · refine ⟨replaySeg events ++ streamSeg cfg (initialContent msg) (stream.take k),
      ?_, ?_⟩
    · rw [hrun]
      dsimp only
      rw [hcseg]
    · intro a ha
      rcases List.mem_append.mp ha with ha | ha
      · exact midAction_replaySeg events a ha
      · exact midAction_streamSeg cfg (stream.take k) (initialContent msg) a ha
  · rw [hrun]
    rw [contentWrites_append, contentWrites_append, contentWrites_append,
      contentWrites_replaySeg events hev, contentWrites_cleanupSeg,
      contentWrites_cancelSeg,
      contentWrites_streamSeg_deferred cfg hrt (stream.take k) (initialContent msg)]
    rw [if_neg (by rw [hrt]; exact Bool.false_ne_true)]
    simp
  · rw [hrun]
    simp only [List.countP_append]
    rw [countP_isFinal_cancelSeg, countP_isFinal_cleanupSeg,
      countP_zero_of_mid _ _ (midAction_replaySeg events)
        isFinalEmit_eq_false_of_mid,
      countP_zero_of_mid _ _
        (midAction_streamSeg cfg (stream.take k) (initialContent msg))
        isFinalEmit_eq_false_of_mid]
  · rw [hrun]
    simp only [List.countP_append]
    rw [countP_isCancel_cancelSeg, countP_isCancel_cleanupSeg,
      countP_zero_of_mid _ _ (midAction_replaySeg events)
        isCancelEmit_eq_false_of_mid,
      countP_zero_of_mid _ _
        (midAction_streamSeg cfg (stream.take k) (initialContent msg))
        isCancelEmit_eq_false_of_mid]

theorem C4_cancellation_partial_save_witness :
    (post_response_handler cfgNRT none []
        [chunkOf "a", chunkOf "b", chunkOf "c"] (some 2)).2 = .cancelled
    ∧ (∃ p, (post_response_handler cfgNRT none []
          [chunkOf "a", chunkOf "b", chunkOf "c"] (some 2)).1 =
          p ++ [Action.emit .taskCancelled,
                Action.upsertContent (initialContent none ++
                  streamDeltas ([chunkOf "a", chunkOf "b", chunkOf "c"].take 2))]
            ++ cleanupSeg cfgNRT
        ∧ ∀ a ∈ p, midAction a = true)
    ∧ contentWrites (post_response_handler cfgNRT none []
        [chunkOf "a", chunkOf "b", chunkOf "c"] (some 2)).1 =
      [initialContent none ++ streamDeltas ([chunkOf "a", chunkOf "b", chunkOf "c"].take 2)]
    ∧ (post_response_handler cfgNRT none []
        [chunkOf "a", chunkOf "b", chunkOf "c"] (some 2)).1.countP isFinalEmit = 0
    ∧ (post_response_handler cfgNRT none []
        [chunkOf "a", chunkOf "b", chunkOf "c"] (some 2)).1.countP isCancelEmit = 1 :=
  C4_cancellation_partial_save cfgNRT none [] [chunkOf "a", chunkOf "b", chunkOf "c"]
    2 (fun _ => rfl) rfl (by simp) (by decide)

/-! ## C9: the cleanup callback -/

/-- Claim C9 is false on the code: the cleanup callback sits after the
`try/except CancelledError`, not in a `finally`, so an exception that
escapes the routine — here a transport fault on the terminal emit — skips
it even though the upstream response declares one. -/
theorem C9_counterexample :
    (post_response_handler cfgFail none [] [] none).2 = .error
    ∧ cfgFail.hasBackground = true
    ∧ (post_response_handler cfgFail none [] [] none).1.count Action.cleanup = 0 := by
  refine ⟨rfl, rfl, by decide⟩

/-- Claim C9 (amended): over a reliable transport, a streaming run whose
upstream response declares a cleanup callback invokes it exactly once at
the very end, both on the success path and on the cancellation path; an
uncaught exception escaping the routine (e.g. a live-transport fault —
only CancelledError is caught) skips the callback. -/
theorem C9_cleanup_once (cfg : Config) (msg : Option MsgRec)
    (events : List EventJson) (stream : List StreamItem) (ca : Option Nat)
    (hemit : ∀ i, cfg.emitOk i = true)
    (hbg : cfg.hasBackground = true) :
    (post_response_handler cfg msg events stream ca).1.count Action.cleanup = 1
    ∧ (post_response_handler cfg msg events stream ca).2 ≠ .error := by
  have hclean : (cleanupSeg cfg).count Action.cleanup = 1 := by
    unfold cleanupSeg
    rw [if_pos hbg]
    rfl
  have hmidcount : ∀ (t : List Action), (∀ a ∈ t, midAction a = true) →
      t.count Action.cleanup = 0 := by
    intro t hmid
    exact List.count_eq_zero.mpr (fun hc => ne_cleanup_of_mid _ (hmid _ hc) rfl)
  cases hcf : cancelFiresB ca stream with
  | false =>
    have hrun := run_ok_success cfg msg events stream ca hemit hcf
    refine ⟨?_, by rw [hrun]; exact fun h => Outcome.noConfusion h⟩
    rw [hrun]
    simp only [List.count_append]
    rw [hclean, hmidcount _ (midAction_replaySeg events),
      hmidcount _ (midAction_streamSeg cfg (processedItems stream ca)
        (initialContent msg)),
      List.count_eq_zero.mpr (cleanup_not_mem_finalSeg cfg _)]
  | true =>
    have hrun := run_ok_cancel cfg msg events stream ca hemit hcf
    refine ⟨?_, by rw [hrun]; exact fun h => Outcome.noConfusion h⟩
    rw [hrun]
    simp only [List.count_append]
    rw [hclean, hmidcount _ (midAction_replaySeg events),
      hmidcount _ (midAction_streamSeg cfg (processedItems stream ca)
        (initialContent msg)),
      List.count_eq_zero.mpr (cleanup_not_mem_cancelSeg cfg _)]

theorem C9_cleanup_once_witness :
    (post_response_handler cfgNRT none [] [chunkOf "a"] none).1.count
        Action.cleanup = 1
    ∧ (post_response_handler cfgNRT none [] [chunkOf "a"] none).2 ≠ .error :=
  C9_cleanup_once cfgNRT none [] [chunkOf "a"] none (fun _ => rfl) rfl

end Middleware
